import Mathlib

/-!
Verification of the knockout-round bookkeeping and deployment host-state
check of the srcomp CLI utilities.

The embedding mirrors `sr/comp/cli/knocked_out_teams.py` and
`sr/comp/cli/deploy.py`.  Team identifiers (TLAs) are strings; a match
participant slot is `Option TLA`, with `none` standing for Python's `None`,
the unresolved sentinel for a slot whose occupant depends on an unscored
earlier match.  Python `frozenset`s become `Finset (Option TLA)` so that
the sentinel's presence or absence in the computed sets is observable.

The generator `teams_and_rounds` is modelled as a function returning
`Option (List Round)`: `none` models the `ValueError` raised by `max()`
over an empty sequence when a knockout round has no matches.
-/

namespace Srcomp

abbrev TLA := String

/-- A knockout match: its schedule number and its participant slots
(`none` is the unresolved sentinel). Mirrors the fields of
`sr.comp.match_period.Match` used by `knocked_out_teams.py`. -/
structure Match where
  num : Nat
  teams : List (Option TLA)
deriving DecidableEq

/-- The per-round summary dataclass `Round` of `knocked_out_teams.py`. -/
structure Round where
  number : Nat
  name : String
  teams_this_round : Finset (Option TLA)
  teams_remaining : Finset (Option TLA)
  teams_out : Finset (Option TLA)
  prior_rounds_complete : Bool
  this_round_complete : Bool
deriving DecidableEq

/-- The parts of the `SRComp` competition state read by `teams_and_rounds`:
the ordered knockout rounds, the full schedule (one entry per match slot,
holding that slot's per-arena matches, i.e. the `dict.values()` of
`comp.schedule.matches[i]`), the number of the last scored match
(`-1` when nothing has been scored), and the team identifiers
(`comp.teams.keys()`). -/
structure SRComp where
  knockout_rounds : List (List Match)
  schedule_matches : List (List Match)
  last_scored_match : Int
  team_keys : List TLA
deriving DecidableEq

/-- `round_name` of `knocked_out_teams.py`. -/
def round_name (rounds_left : Nat) : String :=
  if rounds_left = 0 then "Finals"
  else if rounds_left = 1 then "Semi Finals"
  else if rounds_left = 2 then "Quarter Finals"
  else ""

/-- `teams_from_matches`: the set of all slot values of the given matches
with the `None` sentinel filtered out (`if x is not None`). -/
def teams_from_matches (ms : List Match) : Finset (Option TLA) :=
  ((ms.flatMap Match.teams).filter (fun x => x ≠ none)).toFinset

/-- The matches strictly after the last scored match:
`comp.schedule.matches[comp.scores.last_scored_match + 1:]`, flattened over
each slot's arenas. -/
def future_matches (c : SRComp) : List Match :=
  (c.schedule_matches.drop (c.last_scored_match + 1).toNat).flatten

/-- `teams_with_future_matches` of `teams_and_rounds`. -/
def teams_with_future_matches (c : SRComp) : Finset (Option TLA) :=
  teams_from_matches (future_matches c)

/-- `all_teams_out = comp.teams.keys() - teams_with_future_matches`. -/
def all_teams_out (c : SRComp) : Finset (Option TLA) :=
  (c.team_keys.map some).toFinset \ teams_with_future_matches c

/-- One assignment sweep of the `last_round_by_team` dict for a single
round: every team of the round that is in `all_teams_out` is (re)mapped to
this round's index. -/
def last_round_step (allOut : Finset (Option TLA)) (m : Option TLA → Option Nat)
    (i : Nat) (ms : List Match) : Option TLA → Option Nat :=
  fun t => if t ∈ teams_from_matches ms ∧ t ∈ allOut then some i else m t

/-- The `for i, matches in enumerate(rounds)` loop filling
`last_round_by_team`, starting at index `i` with accumulator `m`.  The
source wraps this loop in an outer `for tla in all_teams_out` whose loop
variable is immediately shadowed; the outer loop merely re-runs this same
sweep, each run overwriting the same keys with the same values, so the
final dict equals the result of a single run (both are empty when
`all_teams_out` is empty). -/
def last_round_loop (allOut : Finset (Option TLA)) (m : Option TLA → Option Nat)
    (i : Nat) : List (List Match) → (Option TLA → Option Nat)
  | [] => m
  | ms :: rest => last_round_loop allOut (last_round_step allOut m i ms) (i + 1) rest

/-- The finished `last_round_by_team` dict, as a function to `Option Nat`. -/
def last_round_by_team (c : SRComp) : Option TLA → Option Nat :=
  last_round_loop (all_teams_out c) (fun _ => none) 0 c.knockout_rounds

/-- `frozenset(out_by_round.get(i, ()))`: the teams whose final
`last_round_by_team` entry is `i` (the grouping of the dict by value). -/
def teams_out_at (c : SRComp) (i : Nat) : Finset (Option TLA) :=
  (all_teams_out c).filter (fun t => last_round_by_team c t = some i)

/-- The `Round` yielded for round `i` with matches `ms`, with `last_round_num`
abbreviated `lrn`.  `none` models the `ValueError` raised by
`max(x.num for x in matches)` when `ms` is empty.  The source passes
`teams_remaining=frozenset()` and `prior_rounds_complete=True` literally. -/
def round_summary (c : SRComp) (lrn i : Nat) (ms : List Match) : Option Round :=
  match ms with
  | [] => none
  | x :: xs =>
    some {
      number := i
      name := round_name (lrn - i)
      teams_this_round := teams_from_matches ms
      teams_remaining := ∅
      teams_out := teams_out_at c i
      prior_rounds_complete := true
      this_round_complete :=
        decide ((((xs.map Match.num).foldl max x.num : Nat) : Int) ≤ c.last_scored_match) }

/-- The yielding loop of `teams_and_rounds`, from round index `i` on. -/
def rounds_from (c : SRComp) (lrn i : Nat) : List (List Match) → Option (List Round)
  | [] => some []
  | ms :: rest => do
    let r ← round_summary c lrn i ms
    let rs ← rounds_from c lrn (i + 1) rest
    pure (r :: rs)

/-- `teams_and_rounds`, fully consumed: `some` of the yielded rounds in
order, or `none` when producing some round raises. -/
def teams_and_rounds (c : SRComp) : Option (List Round) :=
  rounds_from c (c.knockout_rounds.length - 1) 0 c.knockout_rounds

/-- A competition whose single knockout round has an unresolved slot
(`[[A, None]]`) and whose match is not yet scored. -/
def cex_unresolved : SRComp where
  knockout_rounds := [[⟨0, [some "A", none]⟩]]
  schedule_matches := [[⟨0, [some "A", none]⟩]]
  last_scored_match := -1
  team_keys := ["A"]

/-- A competition whose single knockout round has no matches at all. -/
def cex_empty_round : SRComp where
  knockout_rounds := [[]]
  schedule_matches := []
  last_scored_match := 0
  team_keys := []

/-- A fully scored competition with a single knockout round `[[A, B]]`. -/
def cex_one_round : SRComp where
  knockout_rounds := [[⟨0, [some "A", some "B"]⟩]]
  schedule_matches := [[⟨0, [some "A", some "B"]⟩]]
  last_scored_match := 0
  team_keys := ["A", "B"]

/-- A fully scored three-round knockout where seed `A` bypasses the middle
round: rounds `[[A, D]]`, `[[D, B]]`, `[[A, D]]`. -/
def cex_bypass : SRComp where
  knockout_rounds :=
    [[⟨0, [some "A", some "D"]⟩], [⟨1, [some "D", some "B"]⟩], [⟨2, [some "A", some "D"]⟩]]
  schedule_matches :=
    [[⟨0, [some "A", some "D"]⟩], [⟨1, [some "D", some "B"]⟩], [⟨2, [some "A", some "D"]⟩]]
  last_scored_match := 2
  team_keys := ["A", "B", "D"]

/-- The summaries `teams_and_rounds` yields on `cex_one_round`. -/
def round_one : Round :=
  ⟨0, "Finals", {some "A", some "B"}, ∅, {some "A", some "B"}, true, true⟩

/-- The summaries `teams_and_rounds` yields on `cex_bypass`: round 0. -/
def round0_bypass : Round :=
  ⟨0, "Quarter Finals", {some "A", some "D"}, ∅, ∅, true, true⟩

/-- The summaries `teams_and_rounds` yields on `cex_bypass`: round 1. -/
def round1_bypass : Round :=
  ⟨1, "Semi Finals", {some "D", some "B"}, ∅, {some "B"}, true, true⟩

/-- The summaries `teams_and_rounds` yields on `cex_bypass`: round 2. -/
def round2_bypass : Round :=
  ⟨2, "Finals", {some "A", some "D"}, ∅, {some "A", some "D"}, true, true⟩

/-- Spec-side reading of the per-round team set, for comparison with the
source's `teams_from_matches`: "the set of all team identifiers appearing
anywhere in the round's matches (including the unresolved sentinel if
present)". -/
def teams_from_matches_spec (ms : List Match) : Finset (Option TLA) :=
  (ms.flatMap Match.teams).toFinset

/-- Spec-side reading of "teams remaining" at round `i`, for comparison
with the value the source yields: "the union of team identifiers appearing
in this round or any subsequent round, filtered to exclude the unresolved
sentinel". -/
def teams_remaining_spec (c : SRComp) (i : Nat) : Finset (Option TLA) :=
  teams_from_matches (c.knockout_rounds.drop i).flatten

/-!
Model of `check_host_state` and the per-host deployment decision of
`run_deployments` in `sr/comp/cli/deploy.py`.  The git-ancestry queries of
the compstate are abstracted as boolean-valued views; because a successful
`fetch` can change what the repository contains, the environment carries
the view both before and after the optional fetch.  User interaction is
the `answer` oracle: the result records, beside the skip decision, the
exact questions (`query_bool` calls) asked, in order.
-/

/-- The git-ancestry queries `check_host_state` makes of the compstate. -/
structure GitView where
  has_ancestor : String → Bool
  has_commit : String → Bool
  has_descendant : String → Bool

/-- Environment of one `check_host_state` call: the state reported by the
host's API (`none` when the request failed), the compstate's git view
before and after the optional fetch, and the user's answers. -/
structure HostEnv where
  state : Option String
  git : GitView
  git_after_fetch : GitView
  answer : String → Bool

/-- `check_host_state(compstate, host, revision, verbose, interactions)`:
returns the skip decision (`true` = `SKIP`, `false` = `UPDATE`) together
with the list of questions asked of the user. -/
def check_host_state (host revision : String) (env : HostEnv) : Bool × List String :=
  if env.state = none ∨ env.state = some "" then
    let q := "Failed to get state for " ++ host ++ ", cannot advise about history. Deploy anyway?"
    if env.answer q then (false, [q]) else (true, [q])
  else
    let state := env.state.getD ""
    if state = revision then (true, [])
    else if env.git.has_ancestor state then (false, [])
    else
      let fetch_step : GitView × List String :=
        if ¬ env.git.has_commit state then
          let q := "Host " ++ host ++ " has unknown state " ++ state ++ ". Try to fetch it?"
          if env.answer q then (env.git_after_fetch, [q]) else (env.git, [q])
        else (env.git, [])
      let g := fetch_step.1
      if g.has_descendant state then
        let q := "Host " ++ host ++ " has more recent state " ++ state ++ ". Deploy anyway?"
        (if env.answer q then false else true, fetch_step.2 ++ [q])
      else if g.has_commit state then
        let q := "Host " ++ host ++ " has sibling state " ++ state ++ ". Deploy anyway?"
        (if env.answer q then false else true, fetch_step.2 ++ [q])
      else
        let q := "Host " ++ host ++ " has unknown state " ++ state ++ ". Deploy anyway?"
        (if env.answer q then false else true, fetch_step.2 ++ [q])

/-- The per-host decision of `run_deployments`: `deploy_to` runs for a host
exactly when `--skip-host-check` was given or `check_host_state` returned
`UPDATE`. -/
def host_deployed (skip_host_check : Bool) (host revision : String) (env : HostEnv) : Bool :=
  if skip_host_check then true
  else !(check_host_state host revision env).1

/-- A git view answering `false` to every ancestry query. -/
def gv_none : GitView := ⟨fun _ => false, fun _ => false, fun _ => false⟩

/-- A host whose API reports exactly the revision being deployed. -/
def env_same_rev : HostEnv := ⟨some "abc123", gv_none, gv_none, fun _ => true⟩

/-!  Helper lemmas about the yielding loop and the `last_round_by_team`
fill loop. -/

/-- Unfolding of the fields of a successfully built round summary. -/
theorem round_summary_fields {c : SRComp} {lrn i : Nat} {ms : List Match} {r : Round}
    (h : round_summary c lrn i ms = some r) :
    r.teams_this_round = teams_from_matches ms ∧ r.teams_remaining = ∅ ∧
      r.teams_out = teams_out_at c i ∧ r.prior_rounds_complete = true ∧
      r.name = round_name (lrn - i) ∧ r.number = i := by
  cases ms with
  | nil => simp [round_summary] at h
  | cons x xs =>
    simp only [round_summary, Option.some.injEq] at h
    subst h
    simp

/-- Every yielded round summary comes from the matching source round. -/
theorem rounds_from_sound :
    ∀ (rounds : List (List Match)) {c : SRComp} {lrn k : Nat} {rs : List Round},
      rounds_from c lrn k rounds = some rs →
      ∀ j r, rs[j]? = some r →
        ∃ ms, rounds[j]? = some ms ∧ round_summary c lrn (k + j) ms = some r := by
  intro rounds
  induction rounds with
  | nil =>
    intro c lrn k rs h j r hj
    simp only [rounds_from, Option.some.injEq] at h
    subst h
    simp at hj
  | cons ms rest ih =>
    intro c lrn k rs h j r hj
    have h' : (round_summary c lrn k ms).bind
        (fun r0 => (rounds_from c lrn (k + 1) rest).bind
          (fun rs' => some (r0 :: rs'))) = some rs := h
    rw [Option.bind_eq_some] at h'
    obtain ⟨r0, hr0, h2⟩ := h'
    rw [Option.bind_eq_some] at h2
    obtain ⟨rs', hrs', heq⟩ := h2
    obtain rfl : r0 :: rs' = rs := by
      simpa using heq
    cases j with
    | zero =>
      refine ⟨ms, by simp, ?_⟩
      obtain rfl : r0 = r := by simpa using hj
      simpa using hr0
    | succ j =>
      rw [List.getElem?_cons_succ] at hj
      obtain ⟨ms', h1, h2⟩ := ih hrs' j r hj
      refine ⟨ms', by simpa using h1, ?_⟩
      have : k + (j + 1) = k + 1 + j := by omega
      rw [this]
      exact h2

/-- Every source round gives rise to a yielded round summary. -/
theorem rounds_from_complete :
    ∀ (rounds : List (List Match)) {c : SRComp} {lrn k : Nat} {rs : List Round},
      rounds_from c lrn k rounds = some rs →
      ∀ j ms, rounds[j]? = some ms →
        ∃ r, rs[j]? = some r ∧ round_summary c lrn (k + j) ms = some r := by
  intro rounds
  induction rounds with
  | nil =>
    intro c lrn k rs h j ms hj
    simp at hj
  | cons ms0 rest ih =>
    intro c lrn k rs h j ms hj
    have h' : (round_summary c lrn k ms0).bind
        (fun r0 => (rounds_from c lrn (k + 1) rest).bind
          (fun rs' => some (r0 :: rs'))) = some rs := h
    rw [Option.bind_eq_some] at h'
    obtain ⟨r0, hr0, h2⟩ := h'
    rw [Option.bind_eq_some] at h2
    obtain ⟨rs', hrs', heq⟩ := h2
    obtain rfl : r0 :: rs' = rs := by
      simpa using heq
    cases j with
    | zero =>
      obtain rfl : ms0 = ms := by simpa using hj
      exact ⟨r0, by simp, by simpa using hr0⟩
    | succ j =>
      rw [List.getElem?_cons_succ] at hj
      obtain ⟨r, h1, h2⟩ := ih hrs' j ms hj
      refine ⟨r, by simpa using h1, ?_⟩
      have : k + (j + 1) = k + 1 + j := by omega
      rw [this]
      exact h2

/-- A round with no matches makes the whole consumption fail. -/
theorem rounds_from_none :
    ∀ (rounds : List (List Match)) {c : SRComp} {lrn k : Nat},
      [] ∈ rounds → rounds_from c lrn k rounds = none := by
  intro rounds
  induction rounds with
  | nil =>
    intro c lrn k h
    simp at h
  | cons ms rest ih =>
    intro c lrn k h
    rcases List.mem_cons.mp h with h1 | h1
    · subst h1
      rfl
    · show (round_summary c lrn k ms).bind _ = none
      rw [ih h1]
      cases round_summary c lrn k ms <;> rfl


/-- Once the fill loop's accumulator holds an entry for `t`, the final
dict holds one too, either unchanged or overwritten with a later index. -/
theorem last_round_loop_some_ge :
    ∀ (rounds : List (List Match)) (allOut : Finset (Option TLA))
      (m : Option TLA → Option Nat) (i : Nat) (t : Option TLA) (v : Nat),
      m t = some v →
      ∃ w, last_round_loop allOut m i rounds t = some w ∧ (w = v ∨ i ≤ w) := by
  intro rounds
  induction rounds with
  | nil =>
    intro allOut m i t v h
    exact ⟨v, h, Or.inl rfl⟩
  | cons ms rest ih =>
    intro allOut m i t v h
    show ∃ w, last_round_loop allOut (last_round_step allOut m i ms) (i + 1) rest t = some w ∧ _
    by_cases hc : t ∈ teams_from_matches ms ∧ t ∈ allOut
    · have hstep : last_round_step allOut m i ms t = some i := by
        simp [last_round_step, hc]
      obtain ⟨w, hw, hor⟩ := ih allOut _ (i + 1) t i hstep
      exact ⟨w, hw, Or.inr (by omega)⟩
    · have hstep : last_round_step allOut m i ms t = some v := by
        simp only [last_round_step, if_neg hc]
        exact h
      obtain ⟨w, hw, hor⟩ := ih allOut _ (i + 1) t v hstep
      exact ⟨w, hw, by rcases hor with h1 | h1; exact Or.inl h1; exact Or.inr (by omega)⟩

/-- A team of round `j` that is in `all_teams_out` ends up in the dict,
mapped to an index at least `j`. -/
theorem last_round_loop_ge :
    ∀ (rounds : List (List Match)) (allOut : Finset (Option TLA))
      (m : Option TLA → Option Nat) (i : Nat) (t : Option TLA) (j : Nat) (ms : List Match),
      rounds[j]? = some ms → t ∈ teams_from_matches ms → t ∈ allOut →
      ∃ w, last_round_loop allOut m i rounds t = some w ∧ i + j ≤ w := by
  intro rounds
  induction rounds with
  | nil =>
    intro allOut m i t j ms hj
    simp at hj
  | cons ms0 rest ih =>
    intro allOut m i t j ms hj hmem hall
    show ∃ w, last_round_loop allOut (last_round_step allOut m i ms0) (i + 1) rest t = some w ∧ _
    cases j with
    | zero =>
      obtain rfl : ms0 = ms := by simpa using hj
      have hstep : last_round_step allOut m i ms0 t = some i := by
        simp [last_round_step, hmem, hall]
      obtain ⟨w, hw, hor⟩ := last_round_loop_some_ge rest allOut _ (i + 1) t i hstep
      exact ⟨w, hw, by omega⟩
    | succ j =>
      rw [List.getElem?_cons_succ] at hj
      obtain ⟨w, hw, hge⟩ := ih allOut _ (i + 1) t j ms hj hmem hall
      exact ⟨w, hw, by omega⟩

/-- Every entry of the finished dict either was already in the accumulator
or records a round (offset into `rounds`) containing that team, the team
being in `all_teams_out`. -/
theorem last_round_loop_sound :
    ∀ (rounds : List (List Match)) (allOut : Finset (Option TLA))
      (m : Option TLA → Option Nat) (i : Nat) (t : Option TLA) (w : Nat),
      last_round_loop allOut m i rounds t = some w →
      m t = some w ∨
        ∃ j ms, rounds[j]? = some ms ∧ w = i + j ∧
          t ∈ teams_from_matches ms ∧ t ∈ allOut := by
  intro rounds
  induction rounds with
  | nil =>
    intro allOut m i t w h
    exact Or.inl h
  | cons ms0 rest ih =>
    intro allOut m i t w h
    have h' : last_round_loop allOut (last_round_step allOut m i ms0) (i + 1) rest t
        = some w := h
    rcases ih allOut _ (i + 1) t w h' with hstep | ⟨j, ms, hj, hw, hmem, hall⟩
    · by_cases hc : t ∈ teams_from_matches ms0 ∧ t ∈ allOut
      · have hsi : last_round_step allOut m i ms0 t = some i := by
          simp [last_round_step, hc]
        rw [hsi] at hstep
        obtain rfl : i = w := by simpa using hstep
        exact Or.inr ⟨0, ms0, by simp, by omega, hc.1, hc.2⟩
      · left
        rw [last_round_step, if_neg hc] at hstep
        exact hstep
    · exact Or.inr ⟨j + 1, ms, by simpa using hj, by omega, hmem, hall⟩

/-!  Claim theorems. -/

/-- Claim C1: the source hard-codes `prior_rounds_complete=True`, so even a
round whose slots contain the unresolved sentinel (and whose prior matches
are unscored) is yielded with the flag true, where the claim requires
false.  This evaluates `teams_and_rounds` at such an input. -/
theorem prior_rounds_complete_hardcoded_true :
    (teams_and_rounds cex_unresolved).map (fun rs => rs.map Round.prior_rounds_complete)
        = some [true] ∧
      none ∈ (cex_unresolved.knockout_rounds.flatten.flatMap Match.teams) := by
  decide

/-- Claim C2, counterexample: on a competition containing a round with no
matches, `teams_and_rounds` does not yield a summary for it — the
`max(x.num for x in matches)` over the empty round raises, modelled as
`none` — contradicting the claim that such input is treated as a valid
vacuous round with an empty team set and a true completeness flag. -/
theorem empty_round_fails_cex :
    teams_and_rounds cex_empty_round = none ∧ [] ∈ cex_empty_round.knockout_rounds := by
  decide

/-- Claim C2, amended: whenever some knockout round has an empty matches
collection, the fully consumed tracker fails (yields no list of summaries)
rather than treating the round as vacuously complete. -/
theorem empty_round_fails (c : SRComp) (h : [] ∈ c.knockout_rounds) :
    teams_and_rounds c = none :=
  rounds_from_none c.knockout_rounds h

/-- Concrete instantiation of `empty_round_fails`. -/
theorem empty_round_fails_witness :
    [] ∈ cex_empty_round.knockout_rounds ∧ teams_and_rounds cex_empty_round = none :=
  ⟨by decide, empty_round_fails cex_empty_round (by decide)⟩

/-- Claim C3: the source passes `teams_remaining=frozenset()` literally, so
the yielded "teams remaining" set is empty even when teams do appear in
this and subsequent rounds; the claim's union (modelled by
`teams_remaining_spec`) is `{A, B}` at this input while the code yields
`∅`. -/
theorem teams_remaining_hardcoded_empty :
    (teams_and_rounds cex_one_round).map (fun rs => rs.map Round.teams_remaining)
        = some [∅] ∧
      teams_remaining_spec cex_one_round 0 = {some "A", some "B"} ∧
      (∅ : Finset (Option TLA)) ≠ {some "A", some "B"} := by
  decide

/-- Claim C4, counterexample: `teams_from_matches` filters the unresolved
sentinel out, so a round with matches `[[A, UNRESOLVED]]` has team set
`{A}`, not the claimed `{A, UNRESOLVED}` (the latter is what the spec-side
`teams_from_matches_spec` collects). -/
theorem teams_from_matches_drops_sentinel_cex :
    teams_from_matches [⟨0, [some "A", none]⟩] = {some "A"} ∧
      teams_from_matches_spec [⟨0, [some "A", none]⟩] = {some "A", none} ∧
      ({some "A"} : Finset (Option TLA)) ≠ {some "A", none} := by
  decide

/-- Claim C4, amended: the per-round team set collected by the tracker is
the set of participant identifiers of the round's matches with the
unresolved sentinel removed; in particular the sentinel is never a member
of it. -/
theorem teams_from_matches_eq_spec_minus_sentinel (ms : List Match) :
    teams_from_matches ms = (teams_from_matches_spec ms).filter (fun x => x ≠ none) ∧
      none ∉ teams_from_matches ms := by
  constructor
  · ext x
    simp [teams_from_matches, teams_from_matches_spec, List.mem_filter]
  · simp [teams_from_matches, List.mem_filter]

/-- Membership in a per-round team set carries over to the team set of the
flattened list of rounds. -/
theorem tfm_flatten_of_mem {L : List (List Match)} {ms : List Match} {t : Option TLA}
    (hms : ms ∈ L) (h : t ∈ teams_from_matches ms) :
    t ∈ teams_from_matches L.flatten := by
  simp only [teams_from_matches, List.mem_toFinset, List.mem_filter, List.mem_flatMap] at h ⊢
  obtain ⟨⟨mtch, hm, ht⟩, hne⟩ := h
  exact ⟨⟨mtch, List.mem_flatten.mpr ⟨ms, hms, hm⟩, ht⟩, hne⟩

/-- The sentinel is never a member of `all_teams_out` (whose base set is the
real team identifiers). -/
theorem none_not_in_all_teams_out (c : SRComp) : none ∉ all_teams_out c := by
  intro h
  have h1 := (Finset.mem_sdiff.mp h).1
  rw [List.mem_toFinset] at h1
  simp at h1

/-- Claim C5, counterexample: in the fully scored bypass bracket, team `A`
is present in round 0, absent from round 1, and not in round 0's eliminated
set (it is classified at round 2, its last appearance), refuting the claim
that a team of round `i` either advances to round `i+1` or is eliminated at
round `i`. -/
theorem team_accounting_cex :
    teams_and_rounds cex_bypass = some [round0_bypass, round1_bypass, round2_bypass] ∧
      some "A" ∈ round0_bypass.teams_this_round ∧
      some "A" ∉ round1_bypass.teams_this_round ∧
      some "A" ∉ round0_bypass.teams_out := by
  decide

/-- Claim C5, amended: a team of round `i`'s team set that appears in no
match after the last scored match (it is in `all_teams_out`) either appears
in the team set of some strictly later round or is in round `i`'s
eliminated set; mere absence from round `i+1` does not force elimination at
round `i`. -/
theorem team_accounting_amended :
    ∀ (c : SRComp) (rs : List Round) (i : Nat) (r : Round) (t : Option TLA),
      teams_and_rounds c = some rs → rs[i]? = some r →
      t ∈ r.teams_this_round → t ∈ all_teams_out c →
      t ∈ teams_from_matches (c.knockout_rounds.drop (i + 1)).flatten ∨ t ∈ r.teams_out := by
  intro c rs i r t hta hri hmem hall
  obtain ⟨ms, hms, hsum⟩ := rounds_from_sound c.knockout_rounds hta i r hri
  simp only [Nat.zero_add] at hsum
  obtain ⟨h1, _, h3, _, _, _⟩ := round_summary_fields hsum
  rw [h1] at hmem
  obtain ⟨w, hw, hge⟩ := last_round_loop_ge c.knockout_rounds (all_teams_out c)
    (fun _ => none) 0 t i ms hms hmem hall
  have hw' : last_round_by_team c t = some w := hw
  rcases last_round_loop_sound c.knockout_rounds (all_teams_out c) (fun _ => none) 0 t w hw
    with hnone | ⟨j, ms', hj, hwj, hmem', _⟩
  · simp at hnone
  · by_cases hcase : w = i
    · right
      rw [h3]
      refine Finset.mem_filter.mpr ⟨hall, ?_⟩
      rw [hw', hcase]
    · left
      have hjw : j = w := by omega
      subst hjw
      have hlt : i + 1 ≤ j := by omega
      have hdrop : (c.knockout_rounds.drop (i + 1))[j - (i + 1)]? = some ms' := by
        rw [List.getElem?_drop]
        have harith : i + 1 + (j - (i + 1)) = j := by omega
        rw [harith]
        exact hj
      exact tfm_flatten_of_mem (List.mem_iff_getElem?.mpr ⟨j - (i + 1), hdrop⟩) hmem'

/-- Concrete instantiation of `team_accounting_amended` on the bypass
bracket, at round 0 and team `A`. -/
theorem team_accounting_amended_witness :
    some "A" ∈ teams_from_matches (cex_bypass.knockout_rounds.drop 1).flatten ∨
      some "A" ∈ round0_bypass.teams_out :=
  team_accounting_amended cex_bypass [round0_bypass, round1_bypass, round2_bypass] 0
    round0_bypass (some "A") (by decide) (by decide) (by decide) (by decide)

/-- Claim C6: the name of each yielded round summary is
`round_name (total_rounds - 1 - index)`, and `round_name` maps 0, 1, 2 to
"Finals", "Semi Finals", "Quarter Finals" and everything larger to the
empty string. -/
theorem round_names_from_distance :
    (∀ (c : SRComp) (rs : List Round) (i : Nat) (r : Round),
        teams_and_rounds c = some rs → rs[i]? = some r →
        r.name = round_name (c.knockout_rounds.length - 1 - i)) ∧
      round_name 0 = "Finals" ∧ round_name 1 = "Semi Finals" ∧
      round_name 2 = "Quarter Finals" ∧ ∀ k, 2 < k → round_name k = "" := by
  refine ⟨?_, rfl, rfl, rfl, ?_⟩
  · intro c rs i r hta hri
    obtain ⟨ms, _, hsum⟩ := rounds_from_sound c.knockout_rounds hta i r hri
    simp only [Nat.zero_add] at hsum
    exact (round_summary_fields hsum).2.2.2.2.1
  · intro k hk
    have h0 : k ≠ 0 := by omega
    have h1 : k ≠ 1 := by omega
    have h2 : k ≠ 2 := by omega
    simp [round_name, h0, h1, h2]

/-- Concrete instantiation of `round_names_from_distance` on the
three-round bypass bracket at index 0 (two rounds left). -/
theorem round_names_from_distance_witness :
    round0_bypass.name = round_name (cex_bypass.knockout_rounds.length - 1 - 0) :=
  round_names_from_distance.1 cex_bypass [round0_bypass, round1_bypass, round2_bypass] 0
    round0_bypass (by decide) (by decide)

/-- Claim C7: the unresolved sentinel is never a member of the
`teams_out` or `teams_remaining` set of any yielded round summary. -/
theorem sentinel_not_in_out_or_remaining :
    ∀ (c : SRComp) (rs : List Round) (r : Round),
      teams_and_rounds c = some rs → r ∈ rs →
      none ∉ r.teams_out ∧ none ∉ r.teams_remaining := by
  intro c rs r hta hr
  obtain ⟨i, hi⟩ := List.mem_iff_getElem?.mp hr
  obtain ⟨ms, _, hsum⟩ := rounds_from_sound c.knockout_rounds hta i r hi
  simp only [Nat.zero_add] at hsum
  obtain ⟨_, h2, h3, _, _, _⟩ := round_summary_fields hsum
  constructor
  · rw [h3]
    intro hmemb
    exact none_not_in_all_teams_out c (Finset.mem_filter.mp hmemb).1
  · rw [h2]
    exact Finset.not_mem_empty none

/-- Concrete instantiation of `sentinel_not_in_out_or_remaining`. -/
theorem sentinel_not_in_out_or_remaining_witness :
    none ∉ round_one.teams_out ∧ none ∉ round_one.teams_remaining :=
  sentinel_not_in_out_or_remaining cex_one_round [round_one] round_one
    (by decide) (by decide)

/-- Claim C8: the "teams remaining" set of the summary for round `i` is a
superset of that of round `i+1` (both are the empty frozenset the source
passes, so the chain holds). -/
theorem teams_remaining_superset_chain :
    ∀ (c : SRComp) (rs : List Round) (i : Nat) (r r2 : Round),
      teams_and_rounds c = some rs → rs[i]? = some r → rs[i + 1]? = some r2 →
      r2.teams_remaining ⊆ r.teams_remaining := by
  intro c rs i r r2 hta hri hri2
  obtain ⟨ms, _, hsum⟩ := rounds_from_sound c.knockout_rounds hta i r hri
  obtain ⟨ms2, _, hsum2⟩ := rounds_from_sound c.knockout_rounds hta (i + 1) r2 hri2
  rw [(round_summary_fields hsum).2.1, (round_summary_fields hsum2).2.1]

/-- Concrete instantiation of `teams_remaining_superset_chain`. -/
theorem teams_remaining_superset_chain_witness :
    round1_bypass.teams_remaining ⊆ round0_bypass.teams_remaining :=
  teams_remaining_superset_chain cex_bypass [round0_bypass, round1_bypass, round2_bypass] 0
    round0_bypass round1_bypass (by decide) (by decide) (by decide)

/-- Claim C9: the eliminated-team sets of distinct yielded round summaries
are pairwise disjoint, each eliminated team being recorded under the single
round index stored for it in `last_round_by_team`. -/
theorem teams_out_pairwise_disjoint :
    ∀ (c : SRComp) (rs : List Round) (i j : Nat) (ri rj : Round),
      teams_and_rounds c = some rs → rs[i]? = some ri → rs[j]? = some rj → i ≠ j →
      Disjoint ri.teams_out rj.teams_out := by
  intro c rs i j ri rj hta hi hj hne
  obtain ⟨ms, _, hsumi⟩ := rounds_from_sound c.knockout_rounds hta i ri hi
  obtain ⟨ms2, _, hsumj⟩ := rounds_from_sound c.knockout_rounds hta j rj hj
  simp only [Nat.zero_add] at hsumi hsumj
  rw [(round_summary_fields hsumi).2.2.1, (round_summary_fields hsumj).2.2.1,
    Finset.disjoint_left]
  intro t hti htj
  have e1 := (Finset.mem_filter.mp hti).2
  have e2 := (Finset.mem_filter.mp htj).2
  rw [e1] at e2
  exact hne (by simpa using e2)

/-- Concrete instantiation of `teams_out_pairwise_disjoint` on rounds 1 and
2 of the bypass bracket. -/
theorem teams_out_pairwise_disjoint_witness :
    Disjoint round1_bypass.teams_out round2_bypass.teams_out :=
  teams_out_pairwise_disjoint cex_bypass [round0_bypass, round1_bypass, round2_bypass] 1 2
    round1_bypass round2_bypass (by decide) (by decide) (by decide) (by decide)

/-- Claim C10: when the host's reported state is non-empty and equals the
revision being deployed, `check_host_state` returns `SKIP` having asked the
user nothing, and the host is deployed to exactly when the check is
bypassed with `--skip-host-check`. -/
theorem host_at_revision_skipped :
    ∀ (host revision : String) (env : HostEnv) (b : Bool),
      env.state = some revision → revision ≠ "" →
      check_host_state host revision env = (true, []) ∧
        host_deployed b host revision env = b := by
  intro host revision env b hstate hne
  have hchk : check_host_state host revision env = (true, []) := by
    unfold check_host_state
    rw [hstate]
    have hcond : ¬(some revision = (none : Option String) ∨ some revision = some "") := by
      simp [hne]
    rw [if_neg hcond]
    simp
  refine ⟨hchk, ?_⟩
  unfold host_deployed
  rw [hchk]
  cases b <;> simp

/-- Concrete instantiation of `host_at_revision_skipped`. -/
theorem host_at_revision_skipped_witness :
    check_host_state "compbox" "abc123" env_same_rev = (true, []) ∧
      host_deployed false "compbox" "abc123" env_same_rev = false :=
  host_at_revision_skipped "compbox" "abc123" env_same_rev false (by decide) (by decide)

end Srcomp
